import Mathlib

/-!
Verification of the relay engine's core pure logic (`services/relay_common.go`):
provider filtering, round-robin reordering, retry bookkeeping, failure-response
construction and tool-use repair. Go slices become `List`, Go `int` becomes
`Int` (no arithmetic here overflows or wraps), Go maps with string keys become
functions `String → String` returning `""` for missing keys (Go's zero value),
nullable function parameters become `Option`, and JSON bodies (handled through
gjson/sjson in the source) become an explicit JSON tree.
-/

/-- JSON values as trees. gjson/sjson operate on raw bytes; the repair logic
only reads and writes whole fields, so the byte level is modelled by the tree
level. Numbers are modelled as `Int`: no claim inspects numeric payloads. -/
inductive Json where
  | null
  | bool (b : Bool)
  | num (n : Int)
  | str (s : String)
  | arr (items : List Json)
  | obj (fields : List (String × Json))

mutual

/-- Rendering of a JSON value to text, used only to model what
`gjson.Result.String()` returns for array/object values (their raw JSON);
string escaping and source whitespace are elided, which no claim observes. -/
def Json.render : Json → String
  | .null => "null"
  | .bool true => "true"
  | .bool false => "false"
  | .num n => toString n
  | .str s => "\"" ++ s ++ "\""
  | .arr items => "[" ++ Json.renderItems items ++ "]"
  | .obj fields => "\x7b" ++ Json.renderFields fields ++ "\x7d"

def Json.renderItems : List Json → String
  | [] => ""
  | [x] => Json.render x
  | x :: y :: rest => Json.render x ++ "," ++ Json.renderItems (y :: rest)

def Json.renderFields : List (String × Json) → String
  | [] => ""
  | [(k, v)] => "\"" ++ k ++ "\":" ++ Json.render v
  | (k, v) :: f :: rest => "\"" ++ k ++ "\":" ++ Json.render v ++ "," ++ Json.renderFields (f :: rest)

end

/-- First field with the given key, as `gjson` reads object members. -/
def Json.lookupField : List (String × Json) → String → Option Json
  | [], _ => none
  | (k, v) :: rest, key => if k = key then some v else Json.lookupField rest key

/-- `gjson.Get` with a plain key path: a member of an object, nothing else. -/
def Json.get? : Json → String → Option Json
  | .obj fields, key => Json.lookupField fields key
  | _, _ => none

/-- `gjson.Result.String()` on an optional lookup result: missing and `null`
give `""`, strings give themselves, numbers and booleans their text, arrays
and objects their raw JSON. -/
def optStr : Option Json → String
  | none => ""
  | some .null => ""
  | some (.bool true) => "true"
  | some (.bool false) => "false"
  | some (.num n) => toString n
  | some (.str s) => s
  | some (.arr items) => Json.render (.arr items)
  | some (.obj fields) => Json.render (.obj fields)

/-- `sjson.SetBytes` on an object member: replace the first field with the key,
or append the field when the key is absent. -/
def Json.setFieldList : List (String × Json) → String → Json → List (String × Json)
  | [], key, v => [(key, v)]
  | (k, w) :: rest, key, v =>
    if k = key then (key, v) :: rest else (k, w) :: Json.setFieldList rest key v

def Json.setField : Json → String → Json → Json
  | .obj fields, key, v => .obj (Json.setFieldList fields key v)
  | j, _, _ => j

/-- `Provider` as `relay_common.go` uses it: the fields its methods read. -/
structure Provider where
  Name : String
  Level : Int
  Enabled : Bool
  APIURL : String
  APIKey : String
deriving DecidableEq

def Provider.GetName (p : Provider) : String := p.Name

def Provider.GetLevel (p : Provider) : Int :=
  if p.Level ≤ 0 then 1 else p.Level

def Provider.IsEnabled (p : Provider) : Bool := p.Enabled

def Provider.HasValidConfig (p : Provider) : Bool :=
  p.APIURL ≠ "" && p.APIKey ≠ ""

/-- `GeminiProvider` as `relay_common.go` uses it. -/
structure GeminiProvider where
  Name : String
  Level : Int
  Enabled : Bool
  BaseURL : String
deriving DecidableEq

def GeminiProvider.GetName (p : GeminiProvider) : String := p.Name

def GeminiProvider.GetLevel (p : GeminiProvider) : Int :=
  if p.Level ≤ 0 then 1 else p.Level

def GeminiProvider.IsEnabled (p : GeminiProvider) : Bool := p.Enabled

def GeminiProvider.HasValidConfig (p : GeminiProvider) : Bool :=
  p.BaseURL ≠ ""

/-- `FilterResult` of `relay_common.go`. -/
structure FilterResult (T : Type) where
  Active : List T
  SkippedCount : Int
deriving DecidableEq

/-- The config-validator step of `FilterProviders`: a non-nil hook returning a
non-empty error list skips the provider. -/
def validatorRejects (configValidator : Option (Provider → List String)) (p : Provider) : Bool :=
  match configValidator with
  | some v => (v p).length > 0
  | none => false

/-- The model-support step of `FilterProviders`: a non-nil hook with a
non-empty requested model skips providers the hook rejects. -/
def modelRejects (modelChecker : Option (Provider → String → Bool))
    (requestedModel : String) (p : Provider) : Bool :=
  match modelChecker with
  | some c => requestedModel ≠ "" && !(c p requestedModel)
  | none => false

/-- The blacklist step: a non-nil checker reporting `true` skips the provider.
The checker's second component is the expiry time, only printed by the Go
code, carried here as an `Int` timestamp. -/
def blacklistRejects (blacklistChecker : Option (String → String → Bool × Int))
    (kind name : String) : Bool :=
  match blacklistChecker with
  | some f => (f kind name).1
  | none => false

/-- `FilterProviders`. The Go `for` loop appends kept providers left to right,
which the right-fold below reproduces one cons at a time; skipped-count
increments happen exactly where the Go code writes `result.SkippedCount++`
(note: the enabled/valid-config `continue` does not increment it). -/
def FilterProviders (kind requestedModel : String)
    (blacklistChecker : Option (String → String → Bool × Int))
    (modelChecker : Option (Provider → String → Bool))
    (configValidator : Option (Provider → List String)) :
    List Provider → FilterResult Provider
  | [] => ⟨[], 0⟩
  | provider :: rest =>
    let r := FilterProviders kind requestedModel blacklistChecker modelChecker
      configValidator rest
    if !(provider.IsEnabled && provider.HasValidConfig) then r
    else if validatorRejects configValidator provider then ⟨r.Active, r.SkippedCount + 1⟩
    else if modelRejects modelChecker requestedModel provider then
      ⟨r.Active, r.SkippedCount + 1⟩
    else if blacklistRejects blacklistChecker kind provider.Name then
      ⟨r.Active, r.SkippedCount + 1⟩
    else ⟨provider :: r.Active, r.SkippedCount⟩

/-- `FilterGeminiProviders`: only the enabled/valid-config and blacklist steps;
neither `continue` in the Go loop increments `SkippedCount`. -/
def FilterGeminiProviders (blacklistChecker : Option (String → String → Bool × Int)) :
    List GeminiProvider → FilterResult GeminiProvider
  | [] => ⟨[], 0⟩
  | provider :: rest =>
    let r := FilterGeminiProviders blacklistChecker rest
    if !(provider.IsEnabled && provider.HasValidConfig) then r
    else if blacklistRejects blacklistChecker "gemini" provider.Name then r
    else ⟨provider :: r.Active, r.SkippedCount⟩

/-- `RoundRobinState`: the Go struct holds a mutex and a
`map[string]string`; a missing key reads as `""` (Go's zero value), so the
map is a total function defaulting to `""`. -/
structure RoundRobinState where
  lastStart : String → String

/-- `NewRoundRobinState`: the empty map. -/
def RoundRobinState.new : RoundRobinState := ⟨fun _ => ""⟩

/-- Map write `rrs.lastStart[key] = v`. -/
def RoundRobinState.set (rrs : RoundRobinState) (key v : String) : RoundRobinState :=
  ⟨fun k => if k = key then v else rrs.lastStart k⟩

/-- The key `fmt.Sprintf("%s:%d", platform, level)`. -/
def rrKey (platform : String) (level : Int) : String :=
  platform ++ ":" ++ toString level

/-- `getName(providers[0])` for a list known non-empty at the call site. -/
def headName (getName : T → String) : List T → String
  | [] => ""
  | p :: _ => getName p

/-- The linear scan in `Reorder` for the first index whose name equals the
stored last-start name (`-1`, i.e. `none`, when absent). -/
def findNameIdx (getName : T → String) (target : String) : List T → Option Nat
  | [] => none
  | p :: rest =>
    if getName p = target then some 0
    else (findNameIdx getName target rest).map (· + 1)

/-- The result-building loop of `Reorder`:
`result[i] = providers[(lastIdx+1+i) % len(providers)]`. -/
def rotateFrom (l : List T) (lastIdx : Nat) : List T :=
  List.ofFn fun i : Fin l.length =>
    l.get ⟨(lastIdx + 1 + i.val) % l.length, Nat.mod_lt _ (Nat.lt_of_le_of_lt (Nat.zero_le _) i.isLt)⟩

/-- `Reorder`: the Go function mutates `rrs` under its mutex and returns the
reordered list; here it returns the list together with the updated state. -/
def Reorder (rrs : RoundRobinState) (platform : String) (level : Int)
    (providers : List T) (getName : T → String) : List T × RoundRobinState :=
  if providers.length ≤ 1 then (providers, rrs)
  else
    let key := rrKey platform level
    let lastStart := rrs.lastStart key
    let rrs1 := rrs.set key (headName getName providers)
    if lastStart = "" then (providers, rrs1)
    else
      match findNameIdx getName lastStart providers with
      | none => (providers, rrs1)
      | some lastIdx =>
        let result := rotateFrom providers lastIdx
        (result, rrs1.set key (headName getName result))

/-- `RetryContext`; durations are carried as integer nanosecond counts
(`time.Duration` is an `int64`), errors as `Option String` (the message is all
the code reads of an `error`). -/
structure RetryContext where
  MaxRetryPerProvider : Int
  RetryWaitDuration : Int
  TotalAttempts : Int
  LastError : Option String
  LastProvider : String
  LastDuration : Int
deriving DecidableEq

/-- `RecordAttempt`. -/
def RecordAttempt (rc : RetryContext) (provider : String) (duration : Int)
    (err : Option String) : RetryContext :=
  { rc with
    TotalAttempts := rc.TotalAttempts + 1
    LastProvider := provider
    LastDuration := duration
    LastError := match err with
      | some e => some e
      | none => rc.LastError }

/-- `BuildFailureResponse` builds a `gin.H` (a string-keyed JSON object),
modelled as its field list. -/
def BuildFailureResponse (totalAttempts : Int) (lastProvider : String)
    (lastError : Option String) (mode : String) : List (String × Json) :=
  let errorMsg := match lastError with
    | none => "未知错误"
    | some m => m
  let response : List (String × Json) :=
    [("error", .str ("所有 Provider 都失败，最后尝试: " ++ lastProvider ++ " - " ++ errorMsg)),
     ("lastProvider", .str lastProvider),
     ("totalAttempts", .num totalAttempts)]
  if mode = "blacklist" then
    response ++
      [("mode", .str "blacklist_retry"),
       ("hint", .str "拉黑模式已开启，同 Provider 重试到拉黑再切换。如需立即降级请关闭拉黑功能")]
  else response

/-- The backwards scan of `FixIncompleteToolUse` for the last message whose
`role` is `"assistant"`, keeping, as the Go code does, both its index
(`lastAssistantIdx`) and the message itself (`lastAssistantMsg`). -/
def lastAssistant : List Json → Option (Nat × Json)
  | [] => none
  | msg :: rest =>
    match lastAssistant rest with
    | some (j, m) => some (j + 1, m)
    | none =>
      if optStr (msg.get? "role") = "assistant" then some (0, msg) else none

/-- The `content.ForEach` loop collecting ids of `tool_use` items with a
non-empty id, in order. -/
def collectToolUseIDs (content : List Json) : List String :=
  content.filterMap fun item =>
    if optStr (item.get? "type") = "tool_use" then
      let id := optStr (item.get? "id")
      if id = "" then none else some id
    else none

/-- The `hasToolResult` check: the message right after the last assistant
message exists, has role `"user"`, an array `content`, and some content item
of type `"tool_result"`. -/
def hasFollowingToolResult (msgs : List Json) (lastIdx : Nat) : Bool :=
  match msgs.get? (lastIdx + 1) with
  | none => false
  | some nextMsg =>
    if optStr (nextMsg.get? "role") = "user" then
      match nextMsg.get? "content" with
      | some (.arr items) =>
        items.any fun item => optStr (item.get? "type") = "tool_result"
      | _ => false
    else false

/-- One synthetic `tool_result` entry, with the error text of the Go source. -/
def toolResultItem (id : String) : Json :=
  .obj [("type", .str "tool_result"),
        ("tool_use_id", .str id),
        ("content", .str "工具调用被中断（中转站切换），请重新执行此操作"),
        ("is_error", .bool true)]

/-- The synthetic user message appended by the repair. -/
def syntheticUserMsg (ids : List String) : Json :=
  .obj [("role", .str "user"), ("content", .arr (ids.map toolResultItem))]

/-- `FixIncompleteToolUse`. The Go code appends through
`sjson.SetBytes(body, "messages.<len>", msg)`, i.e. it replaces the
`messages` member with the array plus one trailing element; `sjson`'s error
return is unreachable on a parsed body and is dropped. -/
def FixIncompleteToolUse (body : Json) : Json × Bool :=
  match body.get? "messages" with
  | some (.arr msgs) =>
    if msgs.length = 0 then (body, false)
    else
      match lastAssistant msgs with
      | none => (body, false)
      | some (lastIdx, lastMsg) =>
        match lastMsg.get? "content" with
        | some (.arr content) =>
          let toolUseIDs := collectToolUseIDs content
          if toolUseIDs.length = 0 then (body, false)
          else if hasFollowingToolResult msgs lastIdx then (body, false)
          else
            (body.setField "messages" (.arr (msgs ++ [syntheticUserMsg toolUseIDs])), true)
        | _ => (body, false)
  | _ => (body, false)

/-- Whether the last assistant message (the one the repair inspects) is the
final entry of the `messages` array; when no repair can trigger the value is
irrelevant and defaults to `true`. -/
def repairTargetIsFinal (body : Json) : Bool :=
  match body.get? "messages" with
  | some (.arr msgs) =>
    match lastAssistant msgs with
    | some (lastIdx, _) => lastIdx + 1 = msgs.length
    | none => true
  | _ => true

/-- Number of entries in a body's `messages` array, used to observe the
effect of the repair on concrete bodies. -/
def messageCount (body : Json) : Nat :=
  match body.get? "messages" with
  | some (.arr msgs) => msgs.length
  | _ => 0

/-- Providers counted by `FilterProviders.SkippedCount`: those that pass the
enabled/valid-config test and are then rejected by the config-validator,
model-support or blacklist step. -/
def countedAsSkipped (kind requestedModel : String)
    (blacklistChecker : Option (String → String → Bool × Int))
    (modelChecker : Option (Provider → String → Bool))
    (configValidator : Option (Provider → List String)) (p : Provider) : Bool :=
  p.IsEnabled && p.HasValidConfig &&
    (validatorRejects configValidator p || modelRejects modelChecker requestedModel p ||
      blacklistRejects blacklistChecker kind p.Name)

/-- Concrete providers for the spec's round-robin scenario. -/
def provA : Provider := ⟨"A", 1, true, "https://a", "ka"⟩

def provB : Provider := ⟨"B", 1, true, "https://b", "kb"⟩

def provC : Provider := ⟨"C", 1, true, "https://c", "kc"⟩

/-- A disabled provider: dropped by the filter but not counted as skipped. -/
def provDisabled : Provider := ⟨"D", 1, false, "https://d", "kd"⟩

/-- An enabled gemini provider. -/
def gemG : GeminiProvider := ⟨"G", 1, true, "https://g"⟩

/-- A trailing assistant message holding one dangling `tool_use`. -/
def assistMsgT1 : Json :=
  .obj [("role", .str "assistant"),
        ("content", .arr [.obj [("type", .str "tool_use"), ("id", .str "T1")]])]

/-- A user message whose `content` is a plain string (so it carries no
`tool_result`). -/
def userTextMsg : Json := .obj [("role", .str "user"), ("content", .str "hi")]

/-- Body whose dangling assistant message is followed by a plain user message. -/
def bodyDanglingMid : Json := .obj [("messages", .arr [assistMsgT1, userTextMsg])]

/-- Body whose dangling assistant message is the final message. -/
def bodyDanglingEnd : Json := .obj [("messages", .arr [userTextMsg, assistMsgT1])]

theorem rotateFrom_eq_rotate (l : List T) (k : Nat) : rotateFrom l k = l.rotate (k + 1) := by
  apply List.ext_get
  · simp [rotateFrom]
  · intro n h1 h2
    simp only [rotateFrom, List.get_ofFn, List.get_rotate]
    congr 1
    simp only [Fin.coe_cast, Fin.ext_iff]
    congr 1
    omega

theorem length_rotateFrom (l : List T) (k : Nat) : (rotateFrom l k).length = l.length := by
  simp [rotateFrom]

theorem rotateFrom_perm (l : List T) (k : Nat) : (rotateFrom l k).Perm l := by
  rw [rotateFrom_eq_rotate]; exact l.rotate_perm (k + 1)

theorem rotateFrom_get? (l : List T) (k j : Nat) (h : j < l.length) :
    (rotateFrom l k).get? j = l.get? ((k + 1 + j) % l.length) := by
  rw [rotateFrom_eq_rotate, List.get?_rotate h]
  congr 2
  omega

theorem rotateFrom_head? (l : List T) (k : Nat) (h : l ≠ []) :
    (rotateFrom l k).head? = l.get? ((k + 1) % l.length) := by
  have hl : 0 < l.length := List.length_pos.mpr h
  rw [← List.get?_zero, rotateFrom_get? l k 0 hl]

theorem findNameIdx_some {f : T → String} {t : String} {l : List T} {i : Nat}
    (h : findNameIdx f t l = some i) : ∃ hi : i < l.length, f (l.get ⟨i, hi⟩) = t := by
  induction l generalizing i with
  | nil => simp [findNameIdx] at h
  | cons p rest ih =>
    by_cases hp : f p = t
    · simp only [findNameIdx, hp, if_pos rfl] at h
      cases h
      exact ⟨Nat.succ_pos _, hp⟩
    · simp only [findNameIdx, hp, if_false, Option.map_eq_some'] at h
      obtain ⟨j, hj, rfl⟩ := h
      obtain ⟨hjl, hjf⟩ := ih hj
      exact ⟨Nat.succ_lt_succ hjl, hjf⟩

theorem findNameIdx_isSome_of_mem {f : T → String} {t : String} {l : List T}
    (h : t ∈ l.map f) : (findNameIdx f t l).isSome := by
  induction l with
  | nil => simp at h
  | cons p rest ih =>
    by_cases hp : f p = t
    · simp [findNameIdx, hp]
    · simp only [List.map_cons, List.mem_cons] at h
      rcases h with h | h
      · exact absurd h.symm hp
      · simp only [findNameIdx, hp, if_false, Option.isSome_map']
        exact ih h

theorem findNameIdx_first {f : T → String} {t : String} {l : List T} {i : Nat}
    (hi : i < l.length) (ht : f (l.get ⟨i, hi⟩) = t)
    (hfirst : ∀ j (hj : j < i), f (l.get ⟨j, Nat.lt_trans hj hi⟩) ≠ t) :
    findNameIdx f t l = some i := by
  induction l generalizing i with
  | nil => simp at hi
  | cons p rest ih =>
    cases i with
    | zero => simp_all [findNameIdx]
    | succ i' =>
      have hp : f p ≠ t := by
        have := hfirst 0 (Nat.succ_pos _)
        simpa using this
      simp only [findNameIdx, hp, if_false]
      have hrest : findNameIdx f t rest = some i' := by
        apply ih (Nat.lt_of_succ_lt_succ hi)
        · simpa using ht
        · intro j hj
          have := hfirst (j + 1) (Nat.succ_lt_succ hj)
          simpa using this
      rw [hrest]; rfl

theorem RoundRobinState.set_get (s : RoundRobinState) (k v : String) :
    (s.set k v).lastStart k = v := by
  simp [RoundRobinState.set]

theorem headName_head? {f : T → String} {l : List T} {a : T} (h : l.head? = some a) :
    headName f l = f a := by
  cases l with
  | nil => simp at h
  | cons p rest => simp_all [headName]

/-- C2: for every provider list, platform, level and round-robin state, the
list `Reorder` returns is a permutation of its input: same length, same
elements with multiplicity, no duplicates introduced and no drops. -/
theorem reorder_returns_permutation (rrs : RoundRobinState) (platform : String)
    (level : Int) (providers : List T) (getName : T → String) :
    ((Reorder rrs platform level providers getName).1).Perm providers := by
  unfold Reorder
  split
  · exact List.Perm.refl _
  · dsimp only
    split
    · exact List.Perm.refl _
    · split
      · exact List.Perm.refl _
      · exact rotateFrom_perm _ _

/-- C1 counterexample: on the singleton list `[provA]` with an empty stored
last-start, `Reorder` returns the input order but records nothing — the
stored name stays `""`, not `"A"` — because the `len(providers) <= 1` early
return happens before the state write. The claim requires the first
provider's name to be recorded for every non-empty list. -/
theorem reorder_singleton_records_nothing :
    (Reorder RoundRobinState.new "claude" 1 [provA] Provider.GetName).1 = [provA] ∧
    (Reorder RoundRobinState.new "claude" 1 [provA] Provider.GetName).2.lastStart
      (rrKey "claude" 1) ≠ Provider.GetName provA := by
  constructor
  · rfl
  · decide

/-- C1 (amended): (1) for every provider list with at least two elements and
an empty stored last-start, `Reorder` returns the input order and records the
first provider's name; (2) for every list in which the stored last-start name
is non-empty and first occurs at index `i`, the output is
`providers[(i+1) % n], …, providers[i]` and after the call the stored name is
the name of the new first element; (3) from the empty state with fixed input
`[A,B,C]`, four successive calls return `[A,B,C]`, `[B,C,A]`, `[C,A,B]`,
`[A,B,C]`. -/
theorem reorder_round_robin_rotation :
    (∀ (T : Type) (platform : String) (level : Int) (p0 p1 : T) (rest : List T)
        (getName : T → String) (rrs : RoundRobinState),
      rrs.lastStart (rrKey platform level) = "" →
      (Reorder rrs platform level (p0 :: p1 :: rest) getName).1 = p0 :: p1 :: rest ∧
      (Reorder rrs platform level (p0 :: p1 :: rest) getName).2.lastStart
        (rrKey platform level) = getName p0) ∧
    (∀ (T : Type) (platform : String) (level : Int) (providers : List T)
        (getName : T → String) (rrs : RoundRobinState) (i : Nat)
        (hi : i < providers.length),
      rrs.lastStart (rrKey platform level) ≠ "" →
      getName (providers.get ⟨i, hi⟩) = rrs.lastStart (rrKey platform level) →
      (∀ j (hj : j < i), getName (providers.get ⟨j, Nat.lt_trans hj hi⟩) ≠
        rrs.lastStart (rrKey platform level)) →
      (∀ j, j < providers.length →
        (Reorder rrs platform level providers getName).1.get? j =
          providers.get? ((i + 1 + j) % providers.length)) ∧
      ∃ h0, (Reorder rrs platform level providers getName).1.head? = some h0 ∧
        (Reorder rrs platform level providers getName).2.lastStart
          (rrKey platform level) = getName h0) ∧
    ((Reorder RoundRobinState.new "claude" 1 [provA, provB, provC] Provider.GetName).1 =
        [provA, provB, provC] ∧
      (Reorder (Reorder RoundRobinState.new "claude" 1 [provA, provB, provC]
          Provider.GetName).2 "claude" 1 [provA, provB, provC] Provider.GetName).1 =
        [provB, provC, provA] ∧
      (Reorder (Reorder (Reorder RoundRobinState.new "claude" 1 [provA, provB, provC]
          Provider.GetName).2 "claude" 1 [provA, provB, provC] Provider.GetName).2
          "claude" 1 [provA, provB, provC] Provider.GetName).1 =
        [provC, provA, provB] ∧
      (Reorder (Reorder (Reorder (Reorder RoundRobinState.new "claude" 1
          [provA, provB, provC] Provider.GetName).2 "claude" 1 [provA, provB, provC]
          Provider.GetName).2 "claude" 1 [provA, provB, provC] Provider.GetName).2
          "claude" 1 [provA, provB, provC] Provider.GetName).1 =
        [provA, provB, provC]) := by
  refine ⟨?_, ?_, ?_⟩
  · intro T platform level p0 p1 rest getName rrs hempty
    have hlen : ¬((p0 :: p1 :: rest).length ≤ 1) := by simp
    constructor
    · simp only [Reorder, if_neg hlen, hempty, if_true, headName]
    · simp only [Reorder, if_neg hlen, hempty, if_true, headName,
        RoundRobinState.set_get]
  · intro T platform level providers getName rrs i hi hne ht hfirst
    have hfind : findNameIdx getName (rrs.lastStart (rrKey platform level)) providers =
        some i := findNameIdx_first hi ht hfirst
    by_cases hlen : providers.length ≤ 1
    · have hone : providers.length = 1 := by omega
      obtain ⟨a, rfl⟩ := List.length_eq_one.mp hone
      have hi0 : i = 0 := by
        simp only [List.length_singleton] at hi
        omega
      subst hi0
      have hre : Reorder rrs platform level [a] getName = ([a], rrs) := by
        simp [Reorder]
      rw [hre]
      refine ⟨?_, a, rfl, ht.symm⟩
      intro j hj
      have hj0 : j = 0 := by
        simp only [List.length_singleton] at hj
        omega
      subst hj0
      simp
    · have hre : Reorder rrs platform level providers getName =
          (rotateFrom providers i,
            (rrs.set (rrKey platform level) (headName getName providers)).set
              (rrKey platform level) (headName getName (rotateFrom providers i))) := by
        simp only [Reorder, if_neg hlen, if_neg hne, hfind]
      rw [hre]
      have hpos : 0 < providers.length := by omega
      have hnil : providers ≠ [] := List.length_pos.mp hpos
      constructor
      · intro j hj
        exact rotateFrom_get? providers i j hj
      · have hmod : (i + 1) % providers.length < providers.length := Nat.mod_lt _ hpos
        refine ⟨providers.get ⟨(i + 1) % providers.length, hmod⟩, ?_, ?_⟩
        · rw [rotateFrom_head? providers i hnil]
          exact List.get?_eq_get hmod
        · rw [RoundRobinState.set_get]
          exact headName_head? ((rotateFrom_head? providers i hnil).trans
            (List.get?_eq_get hmod))
  · refine ⟨rfl, ?_, ?_, ?_⟩ <;> decide

/-- C1 witness: the amended statement applied to concrete two-provider lists,
once from the empty state and once from a state holding `"A"`. -/
theorem reorder_round_robin_rotation_witness :
    ((Reorder RoundRobinState.new "claude" 1 [provA, provB] Provider.GetName).1 =
        [provA, provB] ∧
      (Reorder RoundRobinState.new "claude" 1 [provA, provB] Provider.GetName).2.lastStart
        (rrKey "claude" 1) = Provider.GetName provA) ∧
    ((∀ j, j < ([provA, provB] : List Provider).length →
        (Reorder (RoundRobinState.new.set (rrKey "claude" 1) "A") "claude" 1
          [provA, provB] Provider.GetName).1.get? j =
          [provA, provB].get? ((0 + 1 + j) % ([provA, provB] : List Provider).length)) ∧
      ∃ h0, (Reorder (RoundRobinState.new.set (rrKey "claude" 1) "A") "claude" 1
          [provA, provB] Provider.GetName).1.head? = some h0 ∧
        (Reorder (RoundRobinState.new.set (rrKey "claude" 1) "A") "claude" 1
          [provA, provB] Provider.GetName).2.lastStart (rrKey "claude" 1) =
          Provider.GetName h0) :=
  ⟨reorder_round_robin_rotation.1 Provider "claude" 1 provA provB [] Provider.GetName
      RoundRobinState.new rfl,
    reorder_round_robin_rotation.2.1 Provider "claude" 1 [provA, provB] Provider.GetName
      (RoundRobinState.new.set (rrKey "claude" 1) "A") 0 (by decide) (by decide) (by decide)
      (fun j hj => absurd hj (Nat.not_lt_zero j))⟩

theorem reorder_head_state (T : Type) (platform : String) (level : Int)
    (providers : List T) (getName : T → String) (rrs : RoundRobinState)
    (hlen : 2 ≤ providers.length) :
    ∃ h1, (Reorder rrs platform level providers getName).1.head? = some h1 ∧
      h1 ∈ providers ∧
      (Reorder rrs platform level providers getName).2.lastStart
        (rrKey platform level) = getName h1 := by
  have hlen1 : ¬(providers.length ≤ 1) := by omega
  have hpos : 0 < providers.length := by omega
  have hnil : providers ≠ [] := List.length_pos.mp hpos
  obtain ⟨p0, rest, rfl⟩ : ∃ p0 rest, providers = p0 :: rest := by
    cases providers with
    | nil => simp at hpos
    | cons a l => exact ⟨a, l, rfl⟩
  by_cases hl : rrs.lastStart (rrKey platform level) = ""
  · have hre : Reorder rrs platform level (p0 :: rest) getName =
        (p0 :: rest, rrs.set (rrKey platform level) (getName p0)) := by
      simp only [Reorder, if_neg hlen1, hl, if_true, headName]
    rw [hre]
    exact ⟨p0, rfl, List.mem_cons_self _ _, RoundRobinState.set_get _ _ _⟩
  · cases hfind : findNameIdx getName (rrs.lastStart (rrKey platform level)) (p0 :: rest) with
    | none =>
      have hre : Reorder rrs platform level (p0 :: rest) getName =
          (p0 :: rest, rrs.set (rrKey platform level) (getName p0)) := by
        simp only [Reorder, if_neg hlen1, if_neg hl, hfind, headName]
      rw [hre]
      exact ⟨p0, rfl, List.mem_cons_self _ _, RoundRobinState.set_get _ _ _⟩
    | some i =>
      have hre : Reorder rrs platform level (p0 :: rest) getName =
          (rotateFrom (p0 :: rest) i,
            (rrs.set (rrKey platform level) (headName getName (p0 :: rest))).set
              (rrKey platform level) (headName getName (rotateFrom (p0 :: rest) i))) := by
        simp only [Reorder, if_neg hlen1, if_neg hl, hfind]
      rw [hre]
      have hmod : (i + 1) % (p0 :: rest).length < (p0 :: rest).length := Nat.mod_lt _ hpos
      have hhead : (rotateFrom (p0 :: rest) i).head? =
          some ((p0 :: rest).get ⟨(i + 1) % (p0 :: rest).length, hmod⟩) :=
        (rotateFrom_head? _ i hnil).trans (List.get?_eq_get hmod)
      exact ⟨(p0 :: rest).get ⟨(i + 1) % (p0 :: rest).length, hmod⟩, hhead,
        List.get_mem _ _ _, (RoundRobinState.set_get _ _ _).trans (headName_head? hhead)⟩

/-- C7 (amended): on every provider list with at least two elements whose
names are pairwise distinct and non-empty, two successive `Reorder` calls with
identical inputs produce lists whose first elements differ. (Without the extra
name hypotheses the claim fails: see the counterexample.) -/
theorem reorder_advances (T : Type) (platform : String) (level : Int)
    (providers : List T) (getName : T → String) (rrs : RoundRobinState)
    (hlen : 2 ≤ providers.length)
    (hnodup : (providers.map getName).Nodup)
    (hnames : ∀ p ∈ providers, getName p ≠ "") :
    ∃ h1 h2,
      (Reorder rrs platform level providers getName).1.head? = some h1 ∧
      (Reorder (Reorder rrs platform level providers getName).2 platform level
        providers getName).1.head? = some h2 ∧
      h1 ≠ h2 := by
  have hlen1 : ¬(providers.length ≤ 1) := by omega
  have hpos : 0 < providers.length := by omega
  have hnil : providers ≠ [] := List.length_pos.mp hpos
  obtain ⟨h1, hh1, hmem1, hst1⟩ :=
    reorder_head_state T platform level providers getName rrs hlen
  have hne1 : getName h1 ≠ "" := hnames h1 hmem1
  have hsome : (findNameIdx getName (getName h1) providers).isSome :=
    findNameIdx_isSome_of_mem (List.mem_map_of_mem getName hmem1)
  obtain ⟨i, hfind⟩ := Option.isSome_iff_exists.mp hsome
  obtain ⟨hi, hname⟩ := findNameIdx_some hfind
  have hre2 : ∀ s : RoundRobinState, s.lastStart (rrKey platform level) = getName h1 →
      (Reorder s platform level providers getName).1 = rotateFrom providers i := by
    intro s hs
    simp only [Reorder, if_neg hlen1, hs, if_neg hne1, hfind]
  have hmod : (i + 1) % providers.length < providers.length := Nat.mod_lt _ hpos
  have hhead2 : (rotateFrom providers i).head? =
      some (providers.get ⟨(i + 1) % providers.length, hmod⟩) :=
    (rotateFrom_head? _ i hnil).trans (List.get?_eq_get hmod)
  refine ⟨h1, providers.get ⟨(i + 1) % providers.length, hmod⟩, hh1, ?_, ?_⟩
  · rw [hre2 _ hst1]
    exact hhead2
  · intro hcontra
    have hidx : (i + 1) % providers.length ≠ i := by
      rcases Nat.lt_or_ge (i + 1) providers.length with h | h
      · rw [Nat.mod_eq_of_lt h]
        omega
      · have hix : i + 1 = providers.length := by omega
        rw [hix, Nat.mod_self]
        omega
    apply hidx
    have hgi : providers.get ⟨i, hi⟩ = h1 :=
      List.inj_on_of_nodup_map hnodup (List.get_mem _ _ _) hmem1 hname
    have heq : providers.get ⟨(i + 1) % providers.length, hmod⟩ = providers.get ⟨i, hi⟩ := by
      rw [hgi, ← hcontra]
    have hfin : (⟨(i + 1) % providers.length, hmod⟩ : Fin providers.length) = ⟨i, hi⟩ :=
      (List.nodup_iff_injective_get.mp (List.Nodup.of_map getName hnodup)) heq
    exact congrArg Fin.val hfin

/-- C7 counterexample: with the duplicate list `[provA, provA]` two successive
calls from the empty state both put `provA` first, so the first elements do
not differ even though the list has two elements. -/
theorem reorder_advances_duplicate_counterexample :
    2 ≤ ([provA, provA] : List Provider).length ∧
    (Reorder RoundRobinState.new "claude" 1 [provA, provA] Provider.GetName).1.head? =
      (Reorder (Reorder RoundRobinState.new "claude" 1 [provA, provA]
        Provider.GetName).2 "claude" 1 [provA, provA] Provider.GetName).1.head? := by
  constructor
  · decide
  · decide

/-- C7 witness: the amended statement at `[provA, provB]` from the empty
state. -/
theorem reorder_advances_witness :
    ∃ h1 h2,
      (Reorder RoundRobinState.new "claude" 1 [provA, provB] Provider.GetName).1.head? =
        some h1 ∧
      (Reorder (Reorder RoundRobinState.new "claude" 1 [provA, provB]
        Provider.GetName).2 "claude" 1 [provA, provB] Provider.GetName).1.head? =
        some h2 ∧
      h1 ≠ h2 :=
  reorder_advances Provider "claude" 1 [provA, provB] Provider.GetName
    RoundRobinState.new (by decide) (by decide) (by decide)

theorem filterProviders_active (kind requestedModel : String)
    (bc : Option (String → String → Bool × Int)) (mc : Option (Provider → String → Bool))
    (cv : Option (Provider → List String)) :
    ∀ providers, (FilterProviders kind requestedModel bc mc cv providers).Active =
      providers.filter fun p => p.IsEnabled && p.HasValidConfig &&
        !validatorRejects cv p && !modelRejects mc requestedModel p &&
        !blacklistRejects bc kind p.Name
  | [] => rfl
  | q :: rest => by
    have ih := filterProviders_active kind requestedModel bc mc cv rest
    simp only [FilterProviders, List.filter_cons]
    cases he : q.IsEnabled <;> cases hv : q.HasValidConfig <;>
      cases hval : validatorRejects cv q <;>
      cases hm : modelRejects mc requestedModel q <;>
      cases hb : blacklistRejects bc kind q.Name <;>
      simp [he, hv, hval, hm, hb, ih]

theorem filterProviders_skipped (kind requestedModel : String)
    (bc : Option (String → String → Bool × Int)) (mc : Option (Provider → String → Bool))
    (cv : Option (Provider → List String)) :
    ∀ providers, (FilterProviders kind requestedModel bc mc cv providers).SkippedCount =
      ((providers.filter (countedAsSkipped kind requestedModel bc mc cv)).length : Int)
  | [] => rfl
  | q :: rest => by
    have ih := filterProviders_skipped kind requestedModel bc mc cv rest
    cases he : q.IsEnabled <;> cases hv : q.HasValidConfig <;>
      cases hval : validatorRejects cv q <;>
      cases hm : modelRejects mc requestedModel q <;>
      cases hb : blacklistRejects bc kind q.Name <;>
      simp [FilterProviders, List.filter_cons, countedAsSkipped, he, hv, hval, hm, hb, ih]

theorem filterGemini_active (bc : Option (String → String → Bool × Int)) :
    ∀ gproviders, (FilterGeminiProviders bc gproviders).Active =
      gproviders.filter fun p => p.IsEnabled && p.HasValidConfig &&
        !blacklistRejects bc "gemini" p.Name
  | [] => rfl
  | q :: rest => by
    have ih := filterGemini_active bc rest
    simp only [FilterGeminiProviders, List.filter_cons]
    cases he : q.IsEnabled <;> cases hv : q.HasValidConfig <;>
      cases hb : blacklistRejects bc "gemini" q.Name <;>
      simp [he, hv, hb, ih]

theorem filterGemini_skipped (bc : Option (String → String → Bool × Int)) :
    ∀ gproviders, (FilterGeminiProviders bc gproviders).SkippedCount = 0
  | [] => rfl
  | q :: rest => by
    have ih := filterGemini_skipped bc rest
    simp only [FilterGeminiProviders]
    cases he : q.IsEnabled <;> cases hv : q.HasValidConfig <;>
      cases hb : blacklistRejects bc "gemini" q.Name <;>
      simp [he, hv, hb, ih]

/-- C4: a provider name the supplied blacklist checker reports as blacklisted
for a kind never appears in `FilterProviders`' Active list for that kind, nor
in `FilterGeminiProviders`' Active list for kind `"gemini"`. -/
theorem filter_excludes_blacklisted (kind requestedModel : String)
    (f : String → String → Bool × Int) (mc : Option (Provider → String → Bool))
    (cv : Option (Provider → List String)) (providers : List Provider)
    (gproviders : List GeminiProvider) (name : String) :
    ((f kind name).1 = true →
      ∀ p ∈ (FilterProviders kind requestedModel (some f) mc cv providers).Active,
        p.Name ≠ name) ∧
    ((f "gemini" name).1 = true →
      ∀ g ∈ (FilterGeminiProviders (some f) gproviders).Active, g.Name ≠ name) := by
  constructor
  · intro hbl p hp hname
    rw [filterProviders_active] at hp
    have := List.of_mem_filter hp
    simp only [blacklistRejects, Bool.and_eq_true, Bool.not_eq_true'] at this
    rw [hname, hbl] at this
    simp at this
  · intro hbl g hg hname
    rw [filterGemini_active] at hg
    have := List.of_mem_filter hg
    simp only [blacklistRejects, Bool.and_eq_true, Bool.not_eq_true'] at this
    rw [hname, hbl] at this
    simp at this

/-- C4 witness: a checker blacklisting the name `"A"` for every kind removes
`provA` and gemini provider `gA` from concrete lists. -/
theorem filter_excludes_blacklisted_witness :
    (∀ p ∈ (FilterProviders "claude" "" (some fun _ n => (n == "A", 0)) none none
      [provA, provB]).Active, p.Name ≠ "A") ∧
    (∀ g ∈ (FilterGeminiProviders (some fun _ n => (n == "A", 0)) [gemG]).Active,
      g.Name ≠ "A") :=
  ⟨(filter_excludes_blacklisted "claude" "" (fun _ n => (n == "A", 0)) none none
      [provA, provB] [gemG] "A").1 (by decide),
    (filter_excludes_blacklisted "claude" "" (fun _ n => (n == "A", 0)) none none
      [provA, provB] [gemG] "A").2 (by decide)⟩

/-- C8 counterexample: a disabled provider is excluded from Active yet not
counted (`SkippedCount` stays 0), and a blacklisted gemini provider is
excluded while `FilterGeminiProviders` also leaves `SkippedCount` 0 — so
`SkippedCount` does not equal the number of providers excluded by the filter
steps. -/
theorem filter_skipped_count_counterexample :
    (FilterProviders "claude" "" none none none [provDisabled]).Active = [] ∧
    (FilterProviders "claude" "" none none none [provDisabled]).SkippedCount = 0 ∧
    (FilterGeminiProviders (some fun _ _ => (true, 0)) [gemG]).Active = [] ∧
    (FilterGeminiProviders (some fun _ _ => (true, 0)) [gemG]).SkippedCount = 0 := by
  refine ⟨?_, ?_, ?_, ?_⟩ <;> decide

/-- C8 (amended): `FilterProviders.SkippedCount` counts exactly the providers
that pass the enabled/valid-config test and are then rejected by the
config-validator, model-support or blacklist step — providers dropped by the
enabled/valid-config test itself are not counted — and
`FilterGeminiProviders.SkippedCount` is always 0. -/
theorem filter_skipped_count (kind requestedModel : String)
    (bc : Option (String → String → Bool × Int)) (mc : Option (Provider → String → Bool))
    (cv : Option (Provider → List String)) (providers : List Provider)
    (gbc : Option (String → String → Bool × Int)) (gproviders : List GeminiProvider) :
    (FilterProviders kind requestedModel bc mc cv providers).SkippedCount =
      ((providers.filter (countedAsSkipped kind requestedModel bc mc cv)).length : Int) ∧
    (FilterGeminiProviders gbc gproviders).SkippedCount = 0 :=
  ⟨filterProviders_skipped kind requestedModel bc mc cv providers,
    filterGemini_skipped gbc gproviders⟩

/-- C9: `BuildFailureResponse` always carries the formatted error string (the
error message defaulting to `"未知错误"` for a nil error), echoes
`lastProvider` and `totalAttempts`, and carries
`mode = "blacklist_retry"` together with a `hint` field exactly when the mode
argument is `"blacklist"`. -/
theorem build_failure_response_shape (totalAttempts : Int) (lastProvider : String)
    (lastError : Option String) (mode : String) :
    Json.lookupField (BuildFailureResponse totalAttempts lastProvider lastError mode)
      "error" = some (.str ("所有 Provider 都失败，最后尝试: " ++ lastProvider ++ " - " ++
        lastError.getD "未知错误")) ∧
    Json.lookupField (BuildFailureResponse totalAttempts lastProvider lastError mode)
      "lastProvider" = some (.str lastProvider) ∧
    Json.lookupField (BuildFailureResponse totalAttempts lastProvider lastError mode)
      "totalAttempts" = some (.num totalAttempts) ∧
    (Json.lookupField (BuildFailureResponse totalAttempts lastProvider lastError mode)
      "mode" = some (.str "blacklist_retry") ↔ mode = "blacklist") ∧
    ((Json.lookupField (BuildFailureResponse totalAttempts lastProvider lastError mode)
      "hint").isSome ↔ mode = "blacklist") := by
  by_cases hm : mode = "blacklist" <;> cases lastError <;>
    simp [BuildFailureResponse, Json.lookupField, hm]

/-- C10: `RecordAttempt` increments `TotalAttempts` by exactly one, overwrites
`LastProvider` and `LastDuration` with its arguments, stores a non-nil error
in `LastError`, and leaves `LastError` (as well as the two configuration
fields) unchanged when the error is nil. -/
theorem record_attempt_spec (rc : RetryContext) (provider : String) (duration : Int)
    (err : Option String) (e : String) :
    (RecordAttempt rc provider duration err).TotalAttempts = rc.TotalAttempts + 1 ∧
    (RecordAttempt rc provider duration err).LastProvider = provider ∧
    (RecordAttempt rc provider duration err).LastDuration = duration ∧
    (RecordAttempt rc provider duration (some e)).LastError = some e ∧
    (RecordAttempt rc provider duration none).LastError = rc.LastError ∧
    (RecordAttempt rc provider duration err).MaxRetryPerProvider = rc.MaxRetryPerProvider ∧
    (RecordAttempt rc provider duration err).RetryWaitDuration = rc.RetryWaitDuration :=
  ⟨rfl, rfl, rfl, rfl, rfl, rfl, rfl⟩

theorem lookupField_setFieldList_same :
    ∀ (fs : List (String × Json)) (key : String) (v : Json),
      Json.lookupField (Json.setFieldList fs key v) key = some v
  | [], key, v => by simp [Json.setFieldList, Json.lookupField]
  | (k, w) :: rest, key, v => by
    by_cases hk : k = key
    · simp [Json.setFieldList, hk, Json.lookupField]
    · simp [Json.setFieldList, hk, Json.lookupField,
        lookupField_setFieldList_same rest key v]

theorem lookupField_setFieldList_other :
    ∀ (fs : List (String × Json)) (key : String) (v : Json) (k' : String), k' ≠ key →
      Json.lookupField (Json.setFieldList fs key v) k' = Json.lookupField fs k'
  | [], key, v, k', h => by
    simp [Json.setFieldList, Json.lookupField, Ne.symm h]
  | (k, w) :: rest, key, v, k', h => by
    by_cases hk : k = key
    · subst hk
      simp [Json.setFieldList, Json.lookupField, Ne.symm h]
    · simp only [Json.setFieldList, if_neg hk, Json.lookupField]
      by_cases hkk : k = k'
      · simp [hkk]
      · simp [hkk, lookupField_setFieldList_other rest key v k' h]

theorem exists_obj_of_get? {body : Json} {k : String} {v : Json}
    (h : body.get? k = some v) : ∃ fs, body = .obj fs := by
  cases body with
  | obj fs => exact ⟨fs, rfl⟩
  | null => simp [Json.get?] at h
  | bool b => simp [Json.get?] at h
  | num n => simp [Json.get?] at h
  | str s => simp [Json.get?] at h
  | arr items => simp [Json.get?] at h

/-- Case analysis of `FixIncompleteToolUse`: either nothing is repaired and
the body comes back unchanged with `false`, or every trigger condition holds
and the synthetic user message is appended. -/
theorem fix_cases (body : Json) :
    FixIncompleteToolUse body = (body, false) ∨
    ∃ msgs lastIdx lastMsg content,
      body.get? "messages" = some (.arr msgs) ∧
      lastAssistant msgs = some (lastIdx, lastMsg) ∧
      lastMsg.get? "content" = some (.arr content) ∧
      collectToolUseIDs content ≠ [] ∧
      hasFollowingToolResult msgs lastIdx = false ∧
      FixIncompleteToolUse body =
        (body.setField "messages"
          (.arr (msgs ++ [syntheticUserMsg (collectToolUseIDs content)])), true) := by
  simp only [FixIncompleteToolUse]
  split
  · rename_i msgs heq
    split
    · exact Or.inl rfl
    · split
      · exact Or.inl rfl
      · rename_i hlen pair lastIdx lastMsg hla
        split
        · rename_i content hc
          split
          · exact Or.inl rfl
          · split
            · exact Or.inl rfl
            · rename_i hids hhtr
              refine Or.inr ⟨msgs, lastIdx, lastMsg, content, heq, hla, hc, ?_, ?_, rfl⟩
              · intro hnil
                exact hids (by rw [hnil]; rfl)
              · exact Bool.eq_false_iff.mpr hhtr
        · exact Or.inl rfl
  · exact Or.inl rfl

/-- C6: `FixIncompleteToolUse` is strictly additive — either it reports no
repair and returns the body unchanged, or it reports a repair, the `messages`
array of the output is the input array with exactly one message appended at
the end, and every other field of the body is unchanged. -/
theorem fix_strictly_additive (body : Json) :
    ((FixIncompleteToolUse body).2 = false ∧ (FixIncompleteToolUse body).1 = body) ∨
    ((FixIncompleteToolUse body).2 = true ∧ ∃ msgs newMsg,
      body.get? "messages" = some (.arr msgs) ∧
      (FixIncompleteToolUse body).1.get? "messages" = some (.arr (msgs ++ [newMsg])) ∧
      ∀ k, k ≠ "messages" → (FixIncompleteToolUse body).1.get? k = body.get? k) := by
  rcases fix_cases body with h | ⟨msgs, lastIdx, lastMsg, content, h1, h2, h3, h4, h5, h6⟩
  · left
    rw [h]
    exact ⟨rfl, rfl⟩
  · right
    obtain ⟨fs, rfl⟩ := exists_obj_of_get? h1
    rw [h6]
    refine ⟨rfl, msgs, syntheticUserMsg (collectToolUseIDs content), h1, ?_, ?_⟩
    · simpa [Json.setField, Json.get?] using
        lookupField_setFieldList_same fs "messages"
          (.arr (msgs ++ [syntheticUserMsg (collectToolUseIDs content)]))
    · intro k hk
      simpa [Json.setField, Json.get?] using
        lookupField_setFieldList_other fs "messages"
          (.arr (msgs ++ [syntheticUserMsg (collectToolUseIDs content)])) k hk

theorem hasFollowingToolResult_iff (msgs : List Json) (lastIdx : Nat) :
    hasFollowingToolResult msgs lastIdx = true ↔
      ∃ nextMsg, msgs.get? (lastIdx + 1) = some nextMsg ∧
        optStr (nextMsg.get? "role") = "user" ∧
        ∃ items, nextMsg.get? "content" = some (.arr items) ∧
          ∃ item ∈ items, optStr (item.get? "type") = "tool_result" := by
  unfold hasFollowingToolResult
  cases hn : msgs.get? (lastIdx + 1) with
  | none => simp
  | some nextMsg =>
    by_cases hr : optStr (nextMsg.get? "role") = "user"
    · simp only [hr, if_true]
      cases hc : nextMsg.get? "content" with
      | none => simp [hc, hr]
      | some j =>
        cases j with
        | arr items => simp [hc, hr, List.any_eq_true]
        | null => simp [hc, hr]
        | bool b => simp [hc, hr]
        | num n => simp [hc, hr]
        | str s => simp [hc, hr]
        | obj fields => simp [hc, hr]
    · simp [hr]

/-- C3: when the `messages` array of a body has a last assistant message whose
content array carries `tool_use` entries with non-empty ids, the repair
returns the body unchanged with `repaired = false` exactly when the following
message exists with role `"user"`, an array content, and some `tool_result`
item; otherwise it appends one user message holding, for each dangling id in
order, a `tool_result` object with the error text and `is_error = true`, and
reports `repaired = true`. -/
theorem fix_repairs_exactly_when_needed (body : Json) (msgs : List Json)
    (lastIdx : Nat) (lastMsg : Json) (content : List Json)
    (h1 : body.get? "messages" = some (.arr msgs))
    (h2 : lastAssistant msgs = some (lastIdx, lastMsg))
    (h3 : lastMsg.get? "content" = some (.arr content))
    (h4 : collectToolUseIDs content ≠ []) :
    ((∃ nextMsg, msgs.get? (lastIdx + 1) = some nextMsg ∧
        optStr (nextMsg.get? "role") = "user" ∧
        ∃ items, nextMsg.get? "content" = some (.arr items) ∧
          ∃ item ∈ items, optStr (item.get? "type") = "tool_result") →
      FixIncompleteToolUse body = (body, false)) ∧
    (¬(∃ nextMsg, msgs.get? (lastIdx + 1) = some nextMsg ∧
        optStr (nextMsg.get? "role") = "user" ∧
        ∃ items, nextMsg.get? "content" = some (.arr items) ∧
          ∃ item ∈ items, optStr (item.get? "type") = "tool_result") →
      FixIncompleteToolUse body =
        (body.setField "messages" (.arr (msgs ++
          [Json.obj [("role", .str "user"),
            ("content", .arr ((collectToolUseIDs content).map fun id =>
              Json.obj [("type", .str "tool_result"),
                ("tool_use_id", .str id),
                ("content", .str "工具调用被中断（中转站切换），请重新执行此操作"),
                ("is_error", .bool true)]))]])), true)) := by
  have hmsgs : msgs ≠ [] := by
    intro hnil
    rw [hnil] at h2
    simp [lastAssistant] at h2
  have hlen : ¬(msgs.length = 0) := fun h => hmsgs (List.length_eq_zero.mp h)
  have hids : ¬((collectToolUseIDs content).length = 0) :=
    fun h => h4 (List.length_eq_zero.mp h)
  constructor
  · intro hex
    have hhtr : hasFollowingToolResult msgs lastIdx = true :=
      (hasFollowingToolResult_iff msgs lastIdx).mpr hex
    simp only [FixIncompleteToolUse, h1, h2, h3, if_neg hlen, if_neg hids, hhtr, if_true]
  · intro hnex
    have hhtr : hasFollowingToolResult msgs lastIdx = false :=
      Bool.eq_false_iff.mpr fun h => hnex ((hasFollowingToolResult_iff msgs lastIdx).mp h)
    simp only [FixIncompleteToolUse, h1, h2, h3, if_neg hlen, if_neg hids, hhtr,
      Bool.false_eq_true, if_false, syntheticUserMsg]
    rfl

/-- C3 witness: the repair applied to a body whose dangling assistant message
is the final message appends exactly one `tool_result` user message for the
dangling id `"T1"`. -/
theorem fix_repairs_exactly_when_needed_witness :
    FixIncompleteToolUse bodyDanglingEnd =
      (bodyDanglingEnd.setField "messages" (.arr ([userTextMsg, assistMsgT1] ++
        [Json.obj [("role", .str "user"),
          ("content", .arr [Json.obj [("type", .str "tool_result"),
            ("tool_use_id", .str "T1"),
            ("content", .str "工具调用被中断（中转站切换），请重新执行此操作"),
            ("is_error", .bool true)]])]])), true) :=
  (fix_repairs_exactly_when_needed bodyDanglingEnd [userTextMsg, assistMsgT1] 1
    assistMsgT1 [Json.obj [("type", .str "tool_use"), ("id", .str "T1")]]
    rfl rfl rfl (by decide)).2
    (by rintro ⟨nextMsg, hn, -⟩; simp at hn)

theorem lastAssistant_append_of_not_assistant (msgs : List Json) (u : Json)
    (hu : optStr (u.get? "role") ≠ "assistant") :
    lastAssistant (msgs ++ [u]) = lastAssistant msgs := by
  induction msgs with
  | nil => simp [lastAssistant, hu]
  | cons m rest ih => simp [lastAssistant, ih]

/-- C5 counterexample: on a body whose dangling assistant message is followed
by a user message without any `tool_result`, the repair appends at the end of
the array, so a second application finds the same dangling `tool_use` again
and appends again: it reports `repaired = true` a second time and grows the
messages array from 3 to 4 — `repair(repair x) ≠ repair x`. -/
theorem fix_not_idempotent_counterexample :
    (FixIncompleteToolUse bodyDanglingMid).2 = true ∧
    messageCount (FixIncompleteToolUse bodyDanglingMid).1 = 3 ∧
    (FixIncompleteToolUse (FixIncompleteToolUse bodyDanglingMid).1).2 = true ∧
    messageCount (FixIncompleteToolUse (FixIncompleteToolUse bodyDanglingMid).1).1 = 4 :=
  ⟨rfl, rfl, rfl, rfl⟩

/-- C5 (amended): the repair is idempotent on every body for which a
triggered repair targets the final message of the array (in particular on
every body it leaves unchanged): there the second application returns the
repaired body unchanged and reports `repaired = false`. When a message
without `tool_result` sits after the last assistant message this fails: see
the counterexample. -/
theorem fix_idempotent_when_target_final (body : Json)
    (h : (FixIncompleteToolUse body).2 = true → repairTargetIsFinal body = true) :
    FixIncompleteToolUse (FixIncompleteToolUse body).1 =
      ((FixIncompleteToolUse body).1, false) := by
  rcases fix_cases body with hc | ⟨msgs, lastIdx, lastMsg, content, h1, h2, h3, h4, h5, h6⟩
  · rw [hc]
    exact hc
  · have htrue : (FixIncompleteToolUse body).2 = true := by rw [h6]
    have hfin : repairTargetIsFinal body = true := h htrue
    have hfinal : lastIdx + 1 = msgs.length := by
      simp only [repairTargetIsFinal, h1, h2, decide_eq_true_eq] at hfin
      exact hfin
    obtain ⟨fs, hbody⟩ := exists_obj_of_get? h1
    have hids : ¬((collectToolUseIDs content).length = 0) :=
      fun hh => h4 (List.length_eq_zero.mp hh)
    obtain ⟨id0, idtl, hids_eq⟩ : ∃ a l, collectToolUseIDs content = a :: l := by
      cases hids2 : collectToolUseIDs content with
      | nil => exact absurd hids2 h4
      | cons a l => exact ⟨a, l, rfl⟩
    have hget' : (body.setField "messages"
        (.arr (msgs ++ [syntheticUserMsg (collectToolUseIDs content)]))).get? "messages" =
        some (.arr (msgs ++ [syntheticUserMsg (collectToolUseIDs content)])) := by
      rw [hbody]
      simpa [Json.setField, Json.get?] using
        lookupField_setFieldList_same fs "messages"
          (.arr (msgs ++ [syntheticUserMsg (collectToolUseIDs content)]))
    have hrole : optStr ((syntheticUserMsg (collectToolUseIDs content)).get? "role") =
        "user" := rfl
    have hla' : lastAssistant (msgs ++ [syntheticUserMsg (collectToolUseIDs content)]) =
        some (lastIdx, lastMsg) := by
      rw [lastAssistant_append_of_not_assistant _ _ (by simp [hrole])]
      exact h2
    have hlen' : ¬((msgs ++ [syntheticUserMsg (collectToolUseIDs content)]).length = 0) := by
      simp
    have hnext : (msgs ++ [syntheticUserMsg (collectToolUseIDs content)]).get?
        (lastIdx + 1) = some (syntheticUserMsg (collectToolUseIDs content)) := by
      rw [hfinal]
      exact List.get?_concat_length msgs _
    have hhtr' : hasFollowingToolResult
        (msgs ++ [syntheticUserMsg (collectToolUseIDs content)]) lastIdx = true := by
      simp only [hasFollowingToolResult, hnext]
      simp [syntheticUserMsg, Json.get?, Json.lookupField, optStr, hids_eq, toolResultItem]
    rw [h6]
    simp only [FixIncompleteToolUse, hget', hla', h3, if_neg hlen', if_neg hids, hhtr',
      if_true]

/-- C5 witness: on a body whose dangling assistant message is the final
message, the second application of the repair changes nothing and reports
`repaired = false`. -/
theorem fix_idempotent_witness :
    FixIncompleteToolUse (FixIncompleteToolUse bodyDanglingEnd).1 =
      ((FixIncompleteToolUse bodyDanglingEnd).1, false) :=
  fix_idempotent_when_target_final bodyDanglingEnd (fun _ => rfl)
